import Mathlib

/-!
Search input controller (`assets/js/main/search/input.js`).

A shallow embedding of `newSearchInputController`: the content-editable search
box that re-renders its text as plain spans and removable chips, keeps the
caret across the re-render, and forwards the typed query to a dispatcher.

JavaScript strings are sequences of UTF-16 code units, so a string is a
`List Nat` here and `length` counts code units, as `String.prototype.length`
does.  The parts of the browser the source calls but does not define (the
layout-dependent `innerText` getter, the Unicode tables behind `toLowerCase`,
`isTopResultsPage`, the effect of `focus()` on the document selection) are
fields of `Host`.
-/

namespace SearchInput

/-! ## Strings -/

/-- A JavaScript string: its UTF-16 code units. -/
abbrev JSString := List Nat

/-- UTF-16 encoding of one code point. -/
def utf16 (c : Char) : List Nat :=
  if c.toNat < 65536 then [c.toNat]
  else [55296 + (c.toNat - 65536) / 1024, 56320 + (c.toNat - 65536) % 1024]

/-- The JavaScript string written by a literal. -/
def js (s : String) : JSString := s.toList.flatMap utf16

/-- The class `\s` of a JavaScript regular expression without the `u` flag, which
is also what `String.prototype.trim` strips: WhiteSpace and LineTerminator. -/
def isWhiteSpace (c : Nat) : Bool :=
  c == 9 || c == 10 || c == 11 || c == 12 || c == 13 || c == 32 || c == 160 ||
  c == 5760 || (8192 ≤ c && c ≤ 8202) || c == 8232 || c == 8233 || c == 8239 ||
  c == 8287 || c == 12288 || c == 65279

/-- The scan of `text.split(/(\s+)/)` (line 124).  `inSpace` tells whether the
token being collected, `cur`, is a match of `\s+` (a captured delimiter) or the
piece of text before the next match.  A match of `\s+` is a maximal run of
white space and is never empty, so the scan closes a piece when it meets white
space, closes a delimiter when it meets anything else, and at the end of the
string pushes the last piece, which is empty when the string ends in a
delimiter. -/
def splitScan : Bool → JSString → JSString → List JSString
  | false, cur, [] => [cur]
  | true, cur, [] => [cur, []]
  | false, cur, c :: cs =>
    if isWhiteSpace c then cur :: splitScan true [c] cs
    else splitScan false (cur ++ [c]) cs
  | true, cur, c :: cs =>
    if isWhiteSpace c then splitScan true (cur ++ [c]) cs
    else cur :: splitScan false [c] cs

/-- The value of `text.split(/(\s+)/)`: pieces and delimiters, in order. -/
def split (text : JSString) : List JSString := splitScan false [] text

/-- The value of `String.prototype.trim`. -/
def trim (s : JSString) : JSString :=
  (s.dropWhile isWhiteSpace).rdropWhile isWhiteSpace

/-- The value of `text.replace(/\n/g, '')` (line 119): every line feed removed. -/
def removeNewlines (s : JSString) : JSString := s.filter (fun c => c != 10)

/-- Lower case of an ASCII code unit. -/
def asciiLower (c : Nat) : Nat := if 65 ≤ c ∧ c ≤ 90 then c + 32 else c

/-- Digits of `n` in base ten, most significant first, pushed in front of `acc`. -/
def decimalAux : Nat → Nat → JSString → JSString
  | 0, _, acc => acc
  | fuel + 1, n, acc =>
    if n / 10 = 0 then (48 + n % 10) :: acc
    else decimalAux fuel (n / 10) ((48 + n % 10) :: acc)

/-- The string a template literal gives for a non-negative integer counter. -/
def decimal (n : Nat) : JSString := decimalAux (n + 1) n []

/-- The chip identifier built on line 143: the letter w followed by the counter. -/
def chipId (counter : Nat) : JSString := 119 :: decimal counter

/-! ## The container and the selection -/

/-- The Text nodes left in an element by `el.innerText = word` (lines 150 and
158): the setter puts the maximal runs of code units other than line feed and
carriage return into Text nodes and a `br` element at each line break.  `cur` is
the run being collected. -/
def fragScan (cur : JSString) : JSString → List JSString
  | [] => if cur = [] then [] else [cur]
  | c :: cs =>
    if c = 10 ∨ c = 13 then
      (if cur = [] then fragScan [] cs else cur :: fragScan [] cs)
    else fragScan (cur ++ [c]) cs

/-- The Text nodes of an element whose `innerText` was set to `word`. -/
def textFragments (word : JSString) : List JSString := fragScan [] word

/-- A child of the content-editable container `$refs.searchInput`. -/
inductive Elem where
  /-- content renderInput did not build (typed or pasted text, a line break):
  the data of its Text nodes in document order -/
  | other (texts : List JSString)
  /-- the span of lines 156-159, its `innerText` set to `word` -/
  | plain (word : JSString)
  /-- the chip of lines 142-154: the outer span carries `x-ref="xref"`, the
  innermost span has its `innerText` set to `word` and holds the dismiss
  button whose handler is `closeWord('closeArg')` -/
  | chip (xref : JSString) (closeArg : JSString) (word : JSString)
  deriving DecidableEq

/-- Whether a child is a chip. -/
def Elem.isChip : Elem → Bool
  | .chip _ _ _ => true
  | _ => false

/-- The literal text a child was given. -/
def Elem.literal : Elem → JSString
  | .other texts => texts.flatten
  | .plain word => word
  | .chip _ _ word => word

/-- The Text nodes below a child, in document order.  The button of a chip holds
an `svg` only, no text. -/
def Elem.textNodes : Elem → List JSString
  | .other texts => texts
  | .plain word => textFragments word
  | .chip _ _ word => textFragments word

/-- The Text nodes below the container, in document order. -/
def textNodesOf (children : List Elem) : List JSString :=
  children.flatMap Elem.textNodes

/-- The value of `input.textContent`: the data of all Text nodes, concatenated. -/
def textContent (children : List Elem) : JSString := (textNodesOf children).flatten

/-- The text shown in the container: the literal texts of its children, in order. -/
def shownText (children : List Elem) : JSString := (children.map Elem.literal).flatten

/-- A collapsed selection inside the container. -/
inductive Caret where
  /-- in the Text node number `node` (document order, from 0) at `offset` -/
  | inText (node : Nat) (offset : Nat)
  /-- in the container itself, before its child number `child` -/
  | inContainer (child : Nat)
  deriving DecidableEq

/-- The number of code units between the start of the container and a caret. -/
def Caret.absolute (children : List Elem) : Caret → Nat
  | .inText node offset => (((textNodesOf children).take node).map List.length).sum + offset
  | .inContainer child => (textContent (children.take child)).length

/-- The first part of `saveSelection` (lines 20-28): `none` when the selection has
no range (the returned function does nothing), otherwise `pos`, the length of
the text from the start of the container to the end of the range. -/
def saveSelection (children : List Elem) : Option Caret → Option Nat
  | none => none
  | some caret => some (caret.absolute children)

/-- The tree walker of lines 31-43 run over the Text nodes in document order:
`length` is the running total the filter keeps, `index` the number of the node
the filter is looking at.  The answer is the first accepted node and the value
of `posEl` at that moment. -/
def restoreWalk (pos : Nat) : Nat → Nat → List JSString → Option (Nat × Nat)
  | _, _, [] => none
  | length, index, el :: rest =>
    if length + el.length ≥ pos then some (index, el.length)
    else restoreWalk pos (length + el.length) (index + 1) rest

/-- The function `restoreSelection` (lines 30-52) returned by `saveSelection`
for a saved `pos`: with no accepted node it returns and leaves the selection as
it is, otherwise the selection becomes the collapsed range `(node, posEl)`. -/
def restoreSelection (children : List Elem) (pos : Nat) (selection : Option Caret) :
    Option Caret :=
  match restoreWalk pos 0 0 (textNodesOf children) with
  | none => selection
  | some (node, posEl) => some (Caret.inText node posEl)

/-! ## The controller -/

/-- The query object received from filters. -/
structure Query where
  q : JSString
  deriving DecidableEq

/-- A call made on the dispatcher. -/
inductive Call where
  /-- the call `applySearchFilters({ filters: { q }, triggerSearch })` -/
  | applySearchFilters (q : JSString) (triggerSearch : Bool)
  /-- the call `searchToggle(value)` -/
  | searchToggle (value : Bool)
  deriving DecidableEq

/-- What the browser and the other modules supply. -/
structure Host where
  /-- the value of `toLowerCase` on a string that is not pure ASCII -/
  lowerNonAscii : JSString → JSString
  /-- the `innerText` getter of the container, which depends on layout and style -/
  innerText : List Elem → JSString
  /-- the document selection after `input.focus()` -/
  focusSelection : List Elem → Option Caret → Option Caret
  /-- the value of `isTopResultsPage()` from the filters module -/
  isTopResultsPage : Bool

/-- The value of `word.toLowerCase()`: on a pure ASCII string only the letters
A to Z change. -/
def toLowerCase (h : Host) (s : JSString) : JSString :=
  if s.all (fun c => decide (c < 128)) then s.map asciiLower else h.lowerNonAscii s

/-- The object `self` (lines 55-61) together with what its methods act on: the
children of `$refs.searchInput`, the document selection (`none`: no range;
a range, when there is one, is collapsed and lies in the container) and the
calls made on the dispatcher so far. -/
structure State where
  query : Option Query
  queryString : JSString
  matchedWords : List JSString
  focus : Bool
  searchOpen : Bool
  children : List Elem
  selection : Option Caret
  calls : List Call
  deriving DecidableEq

/-- The controller as `newSearchInputController` returns it, over a container
that holds `children`. -/
def newSearchInputController (h : Host) (children : List Elem) (selection : Option Caret) :
    State :=
  { query := none, queryString := [], matchedWords := [], focus := false,
    searchOpen := h.isTopResultsPage, children := children, selection := selection,
    calls := [] }

/-- The method `Set.prototype.add` on a set of strings kept in insertion order. -/
def setAdd (set : List JSString) (word : JSString) : List JSString :=
  if word ∈ set then set else set ++ [word]

/-- The method `dispatch` (lines 67-74). -/
def dispatch (h : Host) (s : State) : State :=
  if s.searchOpen = false then s
  else
    let queryString := trim (h.innerText s.children)
    { s with calls := s.calls ++ [Call.applySearchFilters queryString true] }

/-- The method `setFocus` (lines 87-89). -/
def setFocus (s : State) (focus : Bool) : State := { s with focus := focus }

/-- The effect of `input.innerHTML = ''` : the children go, and a range that was
inside them collapses to the start of the container. -/
def clearChildren (s : State) : State :=
  { s with children := [], selection := s.selection.map (fun _ => Caret.inContainer 0) }

/-- The method `close` (lines 76-81). -/
def close (s : State) : State :=
  let s1 := clearChildren s
  let s2 := { s1 with searchOpen := false }
  let s3 := setFocus s2 false
  { s3 with calls := s3.calls ++ [Call.searchToggle false] }

/-- The method `onTurbolinksBeforeRender` (lines 83-85). -/
def onTurbolinksBeforeRender (s : State) : State := { s with searchOpen := false }

/-- The method `click` (lines 91-99). -/
def click (h : Host) (s : State) : State :=
  if s.searchOpen = false then
    let s1 := { s with searchOpen := true }
    let s2 := dispatch h s1
    let s3 := { s2 with selection := h.focusSelection s2.children s2.selection }
    setFocus s3 true
  else s

/-- The method `hasQuery` (lines 107-109), as the truth value its result has. -/
def hasQuery (s : State) : Bool :=
  match s.query with
  | none => false
  | some query => decide (query.q ≠ [])

/-- The test of line 141. -/
def highlighted (h : Host) (matchedWords : List JSString) (word : JSString) : Bool :=
  decide (word.length ≥ 2) && decide (toLowerCase h word ∈ matchedWords)

/-- The loop of lines 140-161 from a given value of `counter`: the children
appended to the container, in order. -/
def renderWords (h : Host) (matchedWords : List JSString) : Nat → List JSString → List Elem
  | _, [] => []
  | counter, word :: rest =>
    if highlighted h matchedWords word then
      Elem.chip (chipId (counter + 1)) (chipId (counter + 1)) word ::
        renderWords h matchedWords (counter + 1) rest
    else Elem.plain word :: renderWords h matchedWords counter rest

/-- The text `renderInput` renders (lines 117-122). -/
def renderText (s : State) : JSString :=
  if s.focus then removeNewlines (textContent s.children)
  else match s.query with
    | some query => query.q
    | none => []

/-- The method `renderInput` (lines 111-164). -/
def renderInput (h : Host) (s : State) : State :=
  let inputTextContent := textContent s.children
  if inputTextContent = [] ∧ hasQuery s = false then s
  else
    let inputWords := split (renderText s)
    let restore := saveSelection s.children s.selection
    let s1 := clearChildren s
    let s2 := { s1 with children := renderWords h s.matchedWords 0 inputWords }
    match restore with
    | none => s2
    | some pos => { s2 with selection := restoreSelection s2.children pos s2.selection }

/-- The argument of `receiveData`: `data.query` and the words that
`data.mainSearch.results.getMatchedWords()` returns. -/
structure Data where
  query : Option Query
  matchedWords : List JSString
  deriving DecidableEq

/-- The method `receiveData` (lines 166-172). -/
def receiveData (h : Host) (s : State) (data : Data) : State :=
  let s1 := { s with query := data.query }
  let s2 := { s1 with matchedWords := data.matchedWords.foldl setAdd s1.matchedWords }
  renderInput h s2

/-- A run of `receiveData` calls, one after the other. -/
def receiveAll (h : Host) (s : State) (calls : List Data) : State :=
  calls.foldl (receiveData h) s

/-- A host for evaluating the model on explicit inputs: `innerText` reads the
literal texts, `focus()` leaves the selection alone, the page is not the
top-results page, and `toLowerCase` changes nothing outside ASCII. -/
def plainHost : Host :=
  { lowerNonAscii := fun s => s, innerText := shownText,
    focusSelection := fun _ sel => sel, isTopResultsPage := false }

/-! ## Inputs the theorems are evaluated on, and notions they speak of -/

/-- A closed, unfocused widget whose container holds the text of the example of
the dispatch gating property, with spaces on both sides. -/
def golangState : State :=
  newSearchInputController plainHost [Elem.other [js "  golang  "]] none

/-- The matched words of the highlight eligibility example of the specification. -/
def apiGo : List JSString := [js "api", js "go"]

/-- The widget of `golangState`, open. -/
def openGolangState : State := { golangState with searchOpen := true }

/-- An unfocused widget with the query "the API is slow" and the matched words
api and go, over an empty container. -/
def queryState : State :=
  { newSearchInputController plainHost [] none with
    query := some { q := js "the API is slow" }, matchedWords := apiGo }

/-- An open, focused widget. -/
def openFocusedState : State :=
  { newSearchInputController plainHost [] none with searchOpen := true, focus := true }

/-- A widget whose container holds one empty span and a caret, with a query
object whose `q` is the empty string. -/
def emptyState : State :=
  { newSearchInputController plainHost [Elem.plain []] (some (Caret.inContainer 0)) with
    query := some { q := [] } }

/-- A focused widget whose container holds the typed text a, line feed, b. -/
def newlineState : State :=
  { newSearchInputController plainHost [Elem.other [[97, 10, 98]]] none with focus := true }

/-- The number a string of decimal digits stands for. -/
def decimalValue (digits : JSString) : Nat := digits.foldl (fun a d => 10 * a + (d - 48)) 0

/-- The chips among the children of the container, in order. -/
def chipsOf (children : List Elem) : List Elem := children.filter Elem.isChip

/-- Equality of two strings when letter case is ignored: their lower-case forms
are the same string. -/
def equalsIgnoringCase (h : Host) (a b : JSString) : Bool :=
  decide (toLowerCase h a = toLowerCase h b)

/-- A search result for the query "API" whose matched word comes in upper case. -/
def upperCaseData : Data := { query := some { q := js "API" }, matchedWords := [js "API"] }

/-- A search result for the query "the API is slow" with matched words api and go. -/
def apiData : Data := { query := some { q := js "the API is slow" }, matchedWords := apiGo }

/-- The children rendered for the text "hello world". -/
def helloWorld : List Elem :=
  [Elem.plain (js "hello"), Elem.plain (js " "), Elem.plain (js "world")]

/-- A focused widget over the typed text "hello world" with the caret after the
letter w, seven code units from the start. -/
def typingState : State :=
  { newSearchInputController plainHost [Elem.other [js "hello world"]]
      (some (Caret.inText 0 7)) with focus := true }

/-! ## Lemmas on strings -/

theorem splitScan_flatten (inSpace : Bool) (cur rest : JSString) :
    (splitScan inSpace cur rest).flatten = cur ++ rest := by
  induction rest generalizing inSpace cur with
  | nil => cases inSpace <;> simp [splitScan]
  | cons c cs ih =>
    cases inSpace <;> by_cases hc : isWhiteSpace c = true <;> simp [splitScan, hc, ih]

theorem split_flatten (text : JSString) : (split text).flatten = text := by
  simp [split, splitScan_flatten]

theorem splitScan_word (cur w : JSString) (hw : ∀ c ∈ w, isWhiteSpace c = false) :
    splitScan false cur w = [cur ++ w] := by
  induction w generalizing cur with
  | nil => simp [splitScan]
  | cons c cs ih =>
    have hc : isWhiteSpace c = false := hw c (List.mem_cons_self c cs)
    simp only [splitScan, hc, Bool.false_eq_true, if_false]
    rw [ih (cur ++ [c]) (fun x hx => hw x (List.mem_cons_of_mem c hx))]
    simp

theorem splitScan_space (cur sp rest : JSString) (hsp : ∀ c ∈ sp, isWhiteSpace c = true)
    (hrest : ∀ c, rest.head? = some c → isWhiteSpace c = false) :
    splitScan true cur (sp ++ rest) = (cur ++ sp) :: splitScan false [] rest := by
  induction sp generalizing cur with
  | nil =>
    cases rest with
    | nil => simp [splitScan]
    | cons c cs =>
      have hc : isWhiteSpace c = false := hrest c rfl
      simp [splitScan, hc]
  | cons c cs ih =>
    have hc : isWhiteSpace c = true := hsp c (List.mem_cons_self c cs)
    have hstep : splitScan true cur (c :: (cs ++ rest)) =
        splitScan true (cur ++ [c]) (cs ++ rest) := by
      simp only [splitScan, hc, if_true]
    rw [List.cons_append, hstep, ih (cur ++ [c]) (fun x hx => hsp x (List.mem_cons_of_mem c hx))]
    simp

theorem splitScan_piece (cur w : JSString) (c : Nat) (rest : JSString)
    (hw : ∀ x ∈ w, isWhiteSpace x = false) (hc : isWhiteSpace c = true) :
    splitScan false cur (w ++ c :: rest) = (cur ++ w) :: splitScan true [c] rest := by
  induction w generalizing cur with
  | nil => simp [splitScan, hc]
  | cons x xs ih =>
    have hx : isWhiteSpace x = false := hw x (List.mem_cons_self x xs)
    have hstep : splitScan false cur (x :: (xs ++ c :: rest)) =
        splitScan false (cur ++ [x]) (xs ++ c :: rest) := by
      simp only [splitScan, hx, Bool.false_eq_true, if_false]
    rw [List.cons_append, hstep, ih (cur ++ [x]) (fun y hy => hw y (List.mem_cons_of_mem x hy))]
    simp

/-- A text without white space is its own single token. -/
theorem split_word (w : JSString) (hw : ∀ c ∈ w, isWhiteSpace c = false) : split w = [w] := by
  simpa [split] using splitScan_word [] w hw

/-- One round of the split: a piece without white space, then a maximal
non-empty run of white space, then the tokens of what follows. -/
theorem split_step (w sp rest : JSString) (hw : ∀ c ∈ w, isWhiteSpace c = false)
    (hne : sp ≠ []) (hsp : ∀ c ∈ sp, isWhiteSpace c = true)
    (hrest : ∀ c, rest.head? = some c → isWhiteSpace c = false) :
    split (w ++ sp ++ rest) = w :: sp :: split rest := by
  cases sp with
  | nil => exact absurd rfl hne
  | cons c cs =>
    have hc : isWhiteSpace c = true := hsp c (List.mem_cons_self c cs)
    unfold split
    rw [List.append_assoc, List.cons_append, splitScan_piece [] w c (cs ++ rest) hw hc,
      splitScan_space [c] cs rest (fun x hx => hsp x (List.mem_cons_of_mem c hx)) hrest]
    simp

theorem rdropWhile_append_rtakeWhile (p : Nat → Bool) (l : List Nat) :
    l.rdropWhile p ++ l.rtakeWhile p = l := by
  unfold List.rdropWhile List.rtakeWhile
  rw [← List.reverse_append, List.takeWhile_append_dropWhile, List.reverse_reverse]

/-- What `trim` removes and what it leaves: white space on both sides, and a
result that neither starts nor ends with white space. -/
theorem trim_spec (s : JSString) :
    ∃ pre post, s = pre ++ trim s ++ post ∧
      (∀ c ∈ pre, isWhiteSpace c = true) ∧ (∀ c ∈ post, isWhiteSpace c = true) ∧
      (∀ c, (trim s).head? = some c → isWhiteSpace c = false) ∧
      (∀ c, (trim s).getLast? = some c → isWhiteSpace c = false) := by
  refine ⟨s.takeWhile isWhiteSpace, (s.dropWhile isWhiteSpace).rtakeWhile isWhiteSpace,
    ?_, ?_, ?_, ?_, ?_⟩
  · unfold trim
    rw [List.append_assoc, rdropWhile_append_rtakeWhile, List.takeWhile_append_dropWhile]
  · intro c hc
    exact List.mem_takeWhile_imp hc
  · intro c hc
    exact List.mem_rtakeWhile_imp hc
  · intro c hc
    obtain ⟨t, ht⟩ := List.rdropWhile_prefix isWhiteSpace (l := s.dropWhile isWhiteSpace)
    have hhead : (s.dropWhile isWhiteSpace).head? = some c := by
      rw [← ht]
      unfold trim at hc
      cases hl : (s.dropWhile isWhiteSpace).rdropWhile isWhiteSpace with
      | nil => rw [hl] at hc; simp at hc
      | cons a as => rw [hl] at hc; simpa using hc
    have hnot := List.head?_dropWhile_not isWhiteSpace s
    rw [hhead] at hnot
    simpa using hnot
  · intro c hc
    unfold trim at hc
    have hne : (s.dropWhile isWhiteSpace).rdropWhile isWhiteSpace ≠ [] := by
      intro hnil
      rw [hnil] at hc
      simp at hc
    have hlast := List.rdropWhile_last_not isWhiteSpace (s.dropWhile isWhiteSpace) hne
    rw [List.getLast?_eq_getLast _ hne] at hc
    have hceq : ((s.dropWhile isWhiteSpace).rdropWhile isWhiteSpace).getLast hne = c := by
      simpa using hc
    rw [hceq] at hlast
    simpa using hlast

/-! ## Tokenization -/

/-- C3: for every input string, the tokens of `text.split(/(\s+)/)`, pieces and
kept delimiters, concatenated in order give the input string back. -/
theorem C3_split_roundtrip (text : JSString) : (split text).flatten = text :=
  split_flatten text

/-! ## Dispatch and the open and closed states -/

/-- C5: when the widget is closed `dispatch` changes nothing, so it makes no
call on the dispatcher; when it is open the log of dispatcher calls grows by
exactly one `applySearchFilters` call with `triggerSearch` true, whose `q` is
the `innerText` of the container without its leading and trailing white
space, and nothing else changes. -/
theorem C5_dispatch_gating (h : Host) (s : State) :
    (s.searchOpen = false → dispatch h s = s) ∧
    (s.searchOpen = true →
      ∃ t pre post,
        dispatch h s = { s with calls := s.calls ++ [Call.applySearchFilters t true] } ∧
        h.innerText s.children = pre ++ t ++ post ∧
        (∀ c ∈ pre, isWhiteSpace c = true) ∧ (∀ c ∈ post, isWhiteSpace c = true) ∧
        (∀ c, t.head? = some c → isWhiteSpace c = false) ∧
        (∀ c, t.getLast? = some c → isWhiteSpace c = false)) := by
  constructor
  · intro hclosed
    simp [dispatch, hclosed]
  · intro hopen
    obtain ⟨pre, post, hsplit, hpre, hpost, hhead, hlast⟩ := trim_spec (h.innerText s.children)
    exact ⟨trim (h.innerText s.children), pre, post, by simp [dispatch, hopen], hsplit, hpre,
      hpost, hhead, hlast⟩

/-- C5 on the text "  golang  ": no call while closed, one call with q "golang"
while open. -/
theorem C5_dispatch_gating_witness :
    golangState.searchOpen = false ∧ dispatch plainHost golangState = golangState ∧
    (dispatch plainHost golangState).calls = [] ∧
    openGolangState.searchOpen = true ∧
    (dispatch plainHost openGolangState).calls = [Call.applySearchFilters (js "golang") true] :=
  ⟨by decide, (C5_dispatch_gating plainHost golangState).1 (by decide), by decide, by decide,
    by decide⟩

/-- C6: `click` on a closed widget leaves it open and focused and adds exactly
one call to the dispatcher log, `applySearchFilters` with the trimmed
`innerText` of the container as `q`. -/
theorem C6_click_opens (h : Host) (s : State) (hclosed : s.searchOpen = false) :
    (click h s).searchOpen = true ∧ (click h s).focus = true ∧
    (click h s).calls =
      s.calls ++ [Call.applySearchFilters (trim (h.innerText s.children)) true] := by
  simp [click, hclosed, dispatch, setFocus]

/-- C6 at a closed widget over the text "  golang  ": one call, with q "golang". -/
theorem C6_click_opens_witness :
    golangState.searchOpen = false ∧
    (click plainHost golangState).searchOpen = true ∧
    (click plainHost golangState).focus = true ∧
    (click plainHost golangState).calls = [Call.applySearchFilters (js "golang") true] :=
  ⟨by decide, (C6_click_opens plainHost golangState (by decide)).1,
    (C6_click_opens plainHost golangState (by decide)).2.1, by decide⟩

/-- C9, as stated, fails: after `onTurbolinksBeforeRender` on an open and focused
widget the focus flag is still set. -/
theorem C9_focus_survives :
    (onTurbolinksBeforeRender openFocusedState).searchOpen = false ∧
    (onTurbolinksBeforeRender openFocusedState).focus = true := by
  decide

/-- C9, amended: after `onTurbolinksBeforeRender` the widget is not open, and
every other field, the focus flag among them, is what it was before; so it is
in the closed state (not open, not focused) exactly when it was not focused
before. -/
theorem C9_navigation_reset (s : State) :
    (onTurbolinksBeforeRender s).searchOpen = false ∧
    (onTurbolinksBeforeRender s).focus = s.focus ∧
    onTurbolinksBeforeRender s = { s with searchOpen := false } ∧
    (((onTurbolinksBeforeRender s).searchOpen = false ∧
        (onTurbolinksBeforeRender s).focus = false) ↔ s.focus = false) := by
  simp [onTurbolinksBeforeRender]

/-! ## Rendering -/

theorem renderWords_getElem (h : Host) (matchedWords : List JSString) (counter : Nat)
    (words : List JSString) (i : Nat) (word : JSString) (hw : words[i]? = some word) :
    ∃ k, (renderWords h matchedWords counter words)[i]? =
      some (if highlighted h matchedWords word then Elem.chip (chipId k) (chipId k) word
        else Elem.plain word) := by
  induction words generalizing counter i with
  | nil => simp at hw
  | cons w rest ih =>
    cases i with
    | zero =>
      simp only [List.getElem?_cons_zero, Option.some.injEq] at hw
      subst hw
      by_cases hh : highlighted h matchedWords w = true
      · exact ⟨counter + 1, by simp [renderWords, hh]⟩
      · exact ⟨0, by simp [renderWords, hh]⟩
    | succ j =>
      simp only [List.getElem?_cons_succ] at hw
      by_cases hh : highlighted h matchedWords w = true
      · obtain ⟨k, hk⟩ := ih (counter + 1) j hw
        exact ⟨k, by simpa [renderWords, hh] using hk⟩
      · obtain ⟨k, hk⟩ := ih counter j hw
        exact ⟨k, by simpa [renderWords, hh] using hk⟩

theorem shownText_renderWords (h : Host) (matchedWords : List JSString) (counter : Nat)
    (words : List JSString) :
    shownText (renderWords h matchedWords counter words) = words.flatten := by
  induction words generalizing counter with
  | nil => simp [renderWords, shownText]
  | cons w rest ih =>
    have ih1 := ih (counter + 1)
    have ih0 := ih counter
    unfold shownText at ih1 ih0 ⊢
    by_cases hh : highlighted h matchedWords w = true
    · simp [renderWords, hh, Elem.literal, ih1]
    · simp [renderWords, hh, Elem.literal, ih0]

theorem renderInput_skip (h : Host) (s : State)
    (hguard : textContent s.children = [] ∧ hasQuery s = false) : renderInput h s = s := by
  simp [renderInput, hguard.1, hguard.2]

theorem renderInput_children (h : Host) (s : State)
    (hguard : ¬(textContent s.children = [] ∧ hasQuery s = false)) :
    (renderInput h s).children = renderWords h s.matchedWords 0 (split (renderText s)) := by
  unfold renderInput
  simp only [hguard, if_false]
  cases saveSelection s.children s.selection <;> rfl

theorem renderInput_matchedWords (h : Host) (s : State) :
    (renderInput h s).matchedWords = s.matchedWords := by
  by_cases hguard : textContent s.children = [] ∧ hasQuery s = false
  · rw [renderInput_skip h s hguard]
  · unfold renderInput
    simp only [hguard, if_false]
    cases saveSelection s.children s.selection <;> rfl

/-- C2: the child rendered for a token of the text is a chip exactly when the
token has at least two code units and its lower-case form is in `matchedWords`;
otherwise, so for every token of length one and for every token that is not in
the set, white space included, it is the plain span whose text is the token.
Either way the child holds the literal token. -/
theorem C2_highlight_eligibility (h : Host) (matchedWords : List JSString) (text : JSString)
    (i : Nat) (word : JSString) (hw : (split text)[i]? = some word) :
    ∃ child, (renderWords h matchedWords 0 (split text))[i]? = some child ∧
      (child.isChip = true ↔ (2 ≤ word.length ∧ toLowerCase h word ∈ matchedWords)) ∧
      (¬(2 ≤ word.length ∧ toLowerCase h word ∈ matchedWords) → child = Elem.plain word) ∧
      (word.length < 2 → child = Elem.plain word) ∧
      child.literal = word := by
  obtain ⟨k, hk⟩ := renderWords_getElem h matchedWords 0 (split text) i word hw
  refine ⟨_, hk, ?_⟩
  by_cases hh : highlighted h matchedWords word = true
  · have hcond : 2 ≤ word.length ∧ toLowerCase h word ∈ matchedWords := by
      simpa [highlighted] using hh
    simp only [hh, if_true, Elem.isChip, Elem.literal, true_iff]
    exact ⟨hcond, fun hn => absurd hcond hn, fun hlt => absurd hcond.1 (by omega), trivial⟩
  · have hcond : ¬(2 ≤ word.length ∧ toLowerCase h word ∈ matchedWords) := by
      simpa [highlighted] using hh
    simp only [hh, Elem.isChip, Elem.literal]
    exact ⟨⟨fun hf => by simp at hf, fun hc => absurd hc hcond⟩, fun _ => by simp,
      fun _ => by simp, by simp⟩

/-- C2 on the text "the API is slow" with matched words api and go: the token
"API" is rendered as the chip w1. -/
theorem C2_highlight_eligibility_witness :
    (split (js "the API is slow"))[2]? = some (js "API") ∧
    (renderWords plainHost apiGo 0 (split (js "the API is slow")))[2]? =
      some (Elem.chip (js "w1") (js "w1") (js "API")) ∧
    ∃ child, (renderWords plainHost apiGo 0 (split (js "the API is slow")))[2]? = some child ∧
      (child.isChip = true ↔
        (2 ≤ (js "API").length ∧ toLowerCase plainHost (js "API") ∈ apiGo)) ∧
      (¬(2 ≤ (js "API").length ∧ toLowerCase plainHost (js "API") ∈ apiGo) →
        child = Elem.plain (js "API")) ∧
      ((js "API").length < 2 → child = Elem.plain (js "API")) ∧
      child.literal = js "API" :=
  ⟨by decide, by decide,
    C2_highlight_eligibility plainHost apiGo (js "the API is slow") 2 (js "API") (by decide)⟩

/-- C7: when the container has no text and `hasQuery()` is falsy, `renderInput`
returns the state it was given: the children of the container and the selection
are exactly as before. -/
theorem C7_empty_render_noop (h : Host) (s : State) (htext : textContent s.children = [])
    (hquery : hasQuery s = false) :
    renderInput h s = s ∧ (renderInput h s).children = s.children ∧
    (renderInput h s).selection = s.selection := by
  have hskip := renderInput_skip h s ⟨htext, hquery⟩
  rw [hskip]
  exact ⟨rfl, rfl, rfl⟩

/-- C7 at a container with an empty span, a caret and an empty query string. -/
theorem C7_empty_render_noop_witness :
    textContent emptyState.children = [] ∧ hasQuery emptyState = false ∧
    renderInput plainHost emptyState = emptyState ∧
    (renderInput plainHost emptyState).children = [Elem.plain []] ∧
    (renderInput plainHost emptyState).selection = some (Caret.inContainer 0) :=
  ⟨by decide, by decide,
    (C7_empty_render_noop plainHost emptyState (by decide) (by decide)).1, by decide, by decide⟩

/-- C4, as stated, fails: the focused widget over the raw text a, line feed, b
shows the text ab after `renderInput`. -/
theorem C4_newline_dropped :
    newlineState.focus = true ∧
    textContent newlineState.children = [97, 10, 98] ∧
    (renderInput plainHost newlineState).children = [Elem.plain [97, 98]] ∧
    shownText (renderInput plainHost newlineState).children ≠
      textContent newlineState.children := by
  decide

/-- C4, amended: a `renderInput` call that gets past the empty-render guard leaves
a container whose shown text is, when the widget is focused, the raw text of
the container with every line feed removed, and, when it is not focused, the
`q` of the query object, or the empty string when there is no query object.  A
call the guard stops leaves the state as it was. -/
theorem C4_rendered_text (h : Host) (s : State) :
    ((textContent s.children = [] ∧ hasQuery s = false) → renderInput h s = s) ∧
    (¬(textContent s.children = [] ∧ hasQuery s = false) →
      (s.focus = true →
        shownText (renderInput h s).children = removeNewlines (textContent s.children)) ∧
      (s.focus = false → ∀ query, s.query = some query →
        shownText (renderInput h s).children = query.q) ∧
      (s.focus = false → s.query = none → shownText (renderInput h s).children = [])) := by
  refine ⟨renderInput_skip h s, fun hguard => ?_⟩
  rw [renderInput_children h s hguard, shownText_renderWords, split_flatten]
  refine ⟨fun hf => by simp [renderText, hf], fun hf query hq => by simp [renderText, hf, hq],
    fun hf hq => by simp [renderText, hf, hq]⟩

/-- C4, amended, on an unfocused widget with the query "the API is slow": the
shown text is that query. -/
theorem C4_rendered_text_witness :
    ¬(textContent queryState.children = [] ∧ hasQuery queryState = false) ∧
    queryState.focus = false ∧
    shownText (renderInput plainHost queryState).children = js "the API is slow" :=
  ⟨by decide, by decide,
    ((C4_rendered_text plainHost queryState).2 (by decide)).2.1 (by decide)
      { q := js "the API is slow" } (by decide)⟩

/-! ## Chip identifiers -/

theorem decimalAux_foldl (fuel n : Nat) (acc : JSString) (hfuel : n < fuel) :
    (decimalAux fuel n acc).foldl (fun a d => 10 * a + (d - 48)) 0 =
      acc.foldl (fun a d => 10 * a + (d - 48)) n := by
  induction fuel generalizing n acc with
  | zero => omega
  | succ fuel ih =>
    by_cases hn : n / 10 = 0
    · have hval : 10 * 0 + (48 + n % 10 - 48) = n := by omega
      simp only [decimalAux, hn, if_true, List.foldl_cons, hval]
    · have hval : 10 * (n / 10) + (48 + n % 10 - 48) = n := by omega
      simp only [decimalAux, hn, if_false]
      rw [ih (n / 10) _ (by omega)]
      simp only [List.foldl_cons, hval]

theorem decimalValue_decimal (n : Nat) : decimalValue (decimal n) = n := by
  unfold decimalValue decimal
  rw [decimalAux_foldl (n + 1) n [] (by omega)]
  rfl

theorem chipId_injective (a b : Nat) (hab : chipId a = chipId b) : a = b := by
  unfold chipId at hab
  have hdec : decimal a = decimal b := by simpa using hab
  have hval := congrArg decimalValue hdec
  simpa [decimalValue_decimal] using hval

theorem chipsOf_renderWords (h : Host) (matchedWords : List JSString) (counter : Nat)
    (words : List JSString) (k : Nat) (e : Elem)
    (hk : (chipsOf (renderWords h matchedWords counter words))[k]? = some e) :
    ∃ word, e = Elem.chip (chipId (counter + k + 1)) (chipId (counter + k + 1)) word := by
  induction words generalizing counter k with
  | nil => simp [renderWords, chipsOf] at hk
  | cons w rest ih =>
    by_cases hh : highlighted h matchedWords w = true
    · simp only [renderWords, hh, if_true, chipsOf, Elem.isChip, List.filter_cons_of_pos] at hk
      cases k with
      | zero =>
        simp only [List.getElem?_cons_zero, Option.some.injEq] at hk
        exact ⟨w, hk.symm⟩
      | succ j =>
        simp only [List.getElem?_cons_succ] at hk
        obtain ⟨word, hword⟩ := ih (counter + 1) j hk
        have hidx : counter + 1 + j + 1 = counter + (j + 1) + 1 := by omega
        rw [hidx] at hword
        exact ⟨word, hword⟩
    · have hplain : Elem.isChip (Elem.plain w) = false := rfl
      simp only [renderWords, hh, chipsOf, Bool.false_eq_true, if_false] at hk
      rw [List.filter_cons_of_neg (by simp [hplain])] at hk
      exact ih counter k hk

/-- C10: in one pass over the tokens of a text the chip number k, counted from 1
in token order, carries the identifier made of the letter w and the decimal
numeral of k, both as its `x-ref` and as the argument of the `closeWord` call
of its dismiss button; so two different chips of the pass never share an
identifier, and the argument of a dismiss button names the `x-ref` of its own
chip and of no other chip. -/
theorem C10_chip_identifiers (h : Host) (matchedWords : List JSString) (text : JSString) :
    (∀ (k : Nat) (chip : Elem),
      (chipsOf (renderWords h matchedWords 0 (split text)))[k]? = some chip →
      ∃ word, chip = Elem.chip (js "w" ++ decimal (k + 1)) (js "w" ++ decimal (k + 1)) word ∧
        decimalValue (decimal (k + 1)) = k + 1) ∧
    (∀ (j k : Nat) (xj aj wj xk ak wk : JSString),
      (chipsOf (renderWords h matchedWords 0 (split text)))[j]? = some (Elem.chip xj aj wj) →
      (chipsOf (renderWords h matchedWords 0 (split text)))[k]? = some (Elem.chip xk ak wk) →
      (xj = xk → j = k) ∧ (ak = xj → j = k) ∧ ak = xk) := by
  constructor
  · intro k chip hk
    obtain ⟨word, hword⟩ := chipsOf_renderWords h matchedWords 0 (split text) k chip hk
    rw [Nat.zero_add] at hword
    exact ⟨word, hword, decimalValue_decimal (k + 1)⟩
  · intro j k xj aj wj xk ak wk hj hk
    obtain ⟨wordj, hwj⟩ := chipsOf_renderWords h matchedWords 0 (split text) j _ hj
    obtain ⟨wordk, hwk⟩ := chipsOf_renderWords h matchedWords 0 (split text) k _ hk
    simp only [Elem.chip.injEq] at hwj hwk
    obtain ⟨hxj, -, -⟩ := hwj
    obtain ⟨hxk, hak, -⟩ := hwk
    subst hxj hxk hak
    refine ⟨fun heq => ?_, fun heq => ?_, rfl⟩
    · have := chipId_injective _ _ heq
      omega
    · have := chipId_injective _ _ heq
      omega

/-- The chips rendered for the text "go api go" with matched words api and go. -/
theorem chipsOf_example :
    chipsOf (renderWords plainHost apiGo 0 (split (js "go api go"))) =
      [Elem.chip (js "w1") (js "w1") (js "go"), Elem.chip (js "w2") (js "w2") (js "api"),
        Elem.chip (js "w3") (js "w3") (js "go")] := by
  decide

/-! ## Matched words -/

theorem mem_foldl_setAdd (words set : List JSString) (w : JSString) :
    w ∈ words.foldl setAdd set ↔ w ∈ set ∨ w ∈ words := by
  induction words generalizing set with
  | nil => simp
  | cons x rest ih =>
    rw [List.foldl_cons, ih]
    by_cases hx : x ∈ set
    · simp only [setAdd, hx, if_true, List.mem_cons]
      constructor
      · rintro (hw | hw)
        · exact Or.inl hw
        · exact Or.inr (Or.inr hw)
      · rintro (hw | hw | hw)
        · exact Or.inl hw
        · exact Or.inl (hw ▸ hx)
        · exact Or.inr hw
    · simp only [setAdd, hx, if_false, List.mem_append, List.mem_singleton, List.mem_cons]
      tauto

theorem receiveData_matchedWords (h : Host) (s : State) (data : Data) :
    (receiveData h s data).matchedWords = data.matchedWords.foldl setAdd s.matchedWords := by
  unfold receiveData
  simp only [renderInput_matchedWords]

theorem mem_receiveAll (h : Host) (s : State) (calls : List Data) (w : JSString) :
    w ∈ (receiveAll h s calls).matchedWords ↔
      w ∈ s.matchedWords ∨ ∃ d ∈ calls, w ∈ d.matchedWords := by
  unfold receiveAll
  induction calls generalizing s with
  | nil => simp
  | cons d rest ih =>
    rw [List.foldl_cons, ih, receiveData_matchedWords, mem_foldl_setAdd]
    simp only [List.mem_cons, exists_eq_or_imp]
    tauto

/-- After any sequence of `receiveData` calls on a fresh controller, a token of
length at least 2 of a rendered text is rendered as a chip exactly when its
lower-case form is, letter for letter, one of the delivered words. -/
theorem highlight_after_receive (h : Host) (children : List Elem)
    (selection : Option Caret) (calls : List Data) (text : JSString) (i : Nat)
    (token : JSString) (htoken : (split text)[i]? = some token) (hlen : 2 ≤ token.length) :
    ∃ child,
      (renderWords h (receiveAll h (newSearchInputController h children selection)
        calls).matchedWords 0 (split text))[i]? = some child ∧
      (child.isChip = true ↔ ∃ d ∈ calls, toLowerCase h token ∈ d.matchedWords) := by
  obtain ⟨k, hk⟩ := renderWords_getElem h
    (receiveAll h (newSearchInputController h children selection) calls).matchedWords 0
    (split text) i token htoken
  refine ⟨_, hk, ?_⟩
  have hmem := mem_receiveAll h (newSearchInputController h children selection) calls
    (toLowerCase h token)
  simp only [newSearchInputController, List.not_mem_nil, false_or] at hmem
  by_cases hh : highlighted h
    (receiveAll h (newSearchInputController h children selection) calls).matchedWords token = true
  · have hin : toLowerCase h token ∈
        (receiveAll h (newSearchInputController h children selection) calls).matchedWords := by
      have hboth := hh
      simp only [highlighted, Bool.and_eq_true, decide_eq_true_eq] at hboth
      exact hboth.2
    simp only [hh, if_true, Elem.isChip, true_iff]
    exact hmem.mp hin
  · have hnot : toLowerCase h token ∉
        (receiveAll h (newSearchInputController h children selection) calls).matchedWords := by
      intro hin
      apply hh
      simp only [highlighted, Bool.and_eq_true, decide_eq_true_eq]
      exact ⟨hlen, hin⟩
    simp only [hh, Elem.isChip]
    constructor
    · intro hf
      simp at hf
    · intro hex
      exact absurd (hmem.mpr hex) hnot

/-- C8: after any sequence of `receiveData` calls on a fresh controller in which
`getMatchedWords()` delivers lower-case words (each word is its own lower-case
form, as the matched-word set of the specification holds them), a token of
length at least 2 of a rendered text is rendered as a chip exactly when some
delivered word equals the token with letter case ignored. -/
theorem C8_case_insensitive_highlighting (h : Host) (children : List Elem)
    (selection : Option Caret) (calls : List Data) (text : JSString) (i : Nat)
    (token : JSString)
    (hlower : ∀ d ∈ calls, ∀ w ∈ d.matchedWords, toLowerCase h w = w)
    (htoken : (split text)[i]? = some token) (hlen : 2 ≤ token.length) :
    ∃ child,
      (renderWords h (receiveAll h (newSearchInputController h children selection)
        calls).matchedWords 0 (split text))[i]? = some child ∧
      (child.isChip = true ↔
        ∃ d ∈ calls, ∃ w ∈ d.matchedWords, equalsIgnoringCase h w token = true) := by
  obtain ⟨child, hchild, hiff⟩ :=
    highlight_after_receive h children selection calls text i token htoken hlen
  refine ⟨child, hchild, hiff.trans ?_⟩
  constructor
  · rintro ⟨d, hd, hin⟩
    refine ⟨d, hd, toLowerCase h token, hin, ?_⟩
    have hw := hlower d hd (toLowerCase h token) hin
    simp only [equalsIgnoringCase, decide_eq_true_eq]
    exact hw
  · rintro ⟨d, hd, w, hw, heq⟩
    simp only [equalsIgnoringCase, decide_eq_true_eq] at heq
    rw [hlower d hd w hw] at heq
    exact ⟨d, hd, heq ▸ hw⟩

/-- C8 on the text "the API is slow" after one `receiveData` call that delivers
the lower-case words api and go: the token "API" is the chip w1, and the
delivered word api equals it with letter case ignored. -/
theorem C8_case_insensitive_highlighting_witness :
    (∀ d ∈ [apiData], ∀ w ∈ d.matchedWords, toLowerCase plainHost w = w) ∧
    (split (js "the API is slow"))[2]? = some (js "API") ∧ 2 ≤ (js "API").length ∧
    (receiveAll plainHost (newSearchInputController plainHost [] none) [apiData]).children =
      [Elem.plain (js "the"), Elem.plain (js " "), Elem.chip (js "w1") (js "w1") (js "API"),
        Elem.plain (js " "), Elem.plain (js "is"), Elem.plain (js " "),
        Elem.plain (js "slow")] ∧
    equalsIgnoringCase plainHost (js "api") (js "API") = true ∧
    ∃ child,
      (renderWords plainHost (receiveAll plainHost (newSearchInputController plainHost [] none)
        [apiData]).matchedWords 0 (split (js "the API is slow")))[2]? = some child ∧
      (child.isChip = true ↔
        ∃ d ∈ [apiData], ∃ w ∈ d.matchedWords,
          equalsIgnoringCase plainHost w (js "API") = true) :=
  ⟨by decide, by decide, by decide, by decide, by decide,
    C8_case_insensitive_highlighting plainHost [] none [apiData] (js "the API is slow") 2
      (js "API") (by decide) (by decide) (by decide)⟩

/-- A delivered word that is not in lower case is outside that domain: after a
`receiveData` call that delivers the word "API" with the query "API", the
token "API" is rendered as a plain span. -/
theorem upper_case_delivery_is_plain :
    toLowerCase plainHost (js "API") ≠ js "API" ∧
    (receiveAll plainHost (newSearchInputController plainHost [] none)
      [upperCaseData]).matchedWords = [js "API"] ∧
    (receiveAll plainHost (newSearchInputController plainHost [] none)
      [upperCaseData]).children = [Elem.plain (js "API")] := by
  decide

/-! ## Caret -/

/-- C1 on the code: with the Text nodes "hello", " ", "world" and the saved
offset 7, the walker stops at the third node, as the claim says, but `posEl` is
the length of that node, so the caret lands at its end, 11 code units from the
start and not 7.  The same happens through `renderInput`. -/
theorem C1_caret_lands_at_node_end :
    restoreWalk 7 0 0 (textNodesOf helloWorld) = some (2, 5) ∧
    restoreSelection helloWorld 7 (some (Caret.inContainer 0)) = some (Caret.inText 2 5) ∧
    (Caret.inText 2 5).absolute helloWorld = 11 ∧
    saveSelection typingState.children typingState.selection = some 7 ∧
    (renderInput plainHost typingState).children = helloWorld ∧
    (renderInput plainHost typingState).selection = some (Caret.inText 2 5) := by
  decide

end SearchInput
